import Mathlib

/-!
Verification of the `FileIndex` subsystem of the fusion-engine-client
repository (`python/fusion_engine_client/analysis/file_index.py`).

The Python code is shallowly embedded: numpy structured arrays become
`List Entry`, float64 timestamps become `PyFloat` (NaN or a rational value),
numpy boolean-mask selection becomes `maskSelect`, `np.argmax` over a boolean
vector becomes `np_argmax` (index of the first `true`, or `0` when no element
is `true`), and Python exceptions become `Except` / explicit error values.
-/

namespace FusionEngine

/-- A Python float as used for index timestamps: either NaN or a real value
(modelled as a rational; all arithmetic the code performs is exact on the
values of interest). -/
inductive PyFloat where
  | nan : PyFloat
  | val : ℚ → PyFloat
deriving DecidableEq

instance : Inhabited PyFloat := ⟨PyFloat.nan⟩

/-- `np.isnan` on one element. -/
def PyFloat.isnan : PyFloat → Bool
  | .nan => true
  | .val _ => false

/-- IEEE-style `>=` comparison as numpy performs it elementwise: any
comparison involving NaN is `false`. -/
def pyGe : PyFloat → PyFloat → Bool
  | .nan, _ => false
  | _, .nan => false
  | .val a, .val b => decide (b ≤ a)

/-- `np.floor` on one element (`floor(NaN) = NaN`). -/
def PyFloat.floor : PyFloat → PyFloat
  | .nan => .nan
  | .val q => .val (⌊q⌋ : ℚ)

/-- One in-memory index entry, mirroring `FileIndex._DTYPE`
(`time: <f8`, `type: <u2`, `offset: <u8`). The `type` and `offset` fields
are the unsigned integers stored in the array. -/
structure Entry where
  time : PyFloat
  type : ℕ
  offset : ℕ
deriving DecidableEq

instance : Inhabited Entry := ⟨⟨.nan, 0, 0⟩⟩

/-- Modelled from the spec: `Timestamp._INVALID`, the reserved sentinel value
written into the unsigned 32-bit integer-time field to encode an invalid
(NaN) timestamp. The `Timestamp` class lives in the `messages` module, which
is not part of the indexed source; the spec describes it only as a reserved
sentinel integer in the 32-bit field, here taken to be the top value
`0xFFFFFFFF`. -/
def Timestamp_INVALID : ℕ := 4294967295

/-- Modelled from the spec: `MessageType.INVALID`, the message-type code used
for the EOF-marker entry. The `MessageType` enumeration lives in the
`messages` module, not in the indexed source; only its use as the EOF-marker
type code matters here. -/
def MessageType_INVALID : ℕ := 0

/-- One on-disk raw record, mirroring `FileIndex._RAW_DTYPE`
(`int: <u4`, `type: <u2`, `offset: <u8`). -/
structure RawRecord where
  int : ℕ
  type : ℕ
  offset : ℕ
deriving DecidableEq

/-- Truncation toward zero, as numpy's float-to-unsigned `astype` cast
behaves for in-range values. -/
def ratTrunc (q : ℚ) : ℤ := if 0 ≤ q then ⌊q⌋ else -⌊-q⌋

/-- `FileIndex._to_raw` on one entry: the `astype(_RAW_DTYPE)` cast truncates
the float64 time into the u32 `int` field (`type` and `offset` keep their
widths and values), then NaN positions are overwritten with the sentinel.
Out-of-range float-to-u32 casts are platform-dependent in numpy; the
reduction modulo `2^32` here is exercised only on in-range values by the
theorems below. -/
def to_raw (e : Entry) : RawRecord :=
  match e.time with
  | .nan => ⟨Timestamp_INVALID, e.type, e.offset⟩
  | .val q => ⟨((ratTrunc q) % (2 ^ 32 : ℤ)).toNat, e.type, e.offset⟩

/-- `FileIndex._from_raw` on one record: positions whose u32 field equals the
sentinel get time NaN; the rest get the exact float64 value of the u32
integer (exact because float64 has a 53-bit mantissa). -/
def from_raw (r : RawRecord) : Entry :=
  if r.int = Timestamp_INVALID then ⟨.nan, r.type, r.offset⟩
  else ⟨.val (r.int : ℚ), r.type, r.offset⟩

theorem ratTrunc_of_nonneg {q : ℚ} (h : 0 ≤ q) : ratTrunc q = ⌊q⌋ := by
  simp [ratTrunc, h]

/-- C6 (amended): encoding then decoding an index entry yields the identical
`(time, type, offset)` when the time is integer-valued, `(floor(time), type,
offset)` (truncation, not rounding) when it is fractional, and a NaN time for
a NaN input — provided the time lies in `[0, 4294967295)`, i.e. fits the
unsigned 32-bit field and does not collide with the invalid-time sentinel.
The claim as stated, over every entry, fails at time `4294967295.0` (see the
counterexample). -/
theorem c6_codec_roundtrip :
    (∀ (e : Entry) (q : ℚ), e.time = .val q → 0 ≤ q → q < 4294967295 →
      from_raw (to_raw e) = ⟨.val (⌊q⌋ : ℚ), e.type, e.offset⟩) ∧
    (∀ (e : Entry) (q : ℚ), e.time = .val q → 0 ≤ q → q < 4294967295 →
      (⌊q⌋ : ℚ) = q → from_raw (to_raw e) = e) ∧
    (∀ (e : Entry), e.time = .nan → from_raw (to_raw e) = ⟨.nan, e.type, e.offset⟩) := by
  have base : ∀ (e : Entry) (q : ℚ), e.time = .val q → 0 ≤ q → q < 4294967295 →
      from_raw (to_raw e) = ⟨.val (⌊q⌋ : ℚ), e.type, e.offset⟩ := by
    intro e q hq h0 hlt
    have hfl0 : (0 : ℤ) ≤ ⌊q⌋ := Int.floor_nonneg.mpr h0
    have hflt : ⌊q⌋ < 4294967295 := by
      have : (⌊q⌋ : ℚ) ≤ q := Int.floor_le q
      exact_mod_cast lt_of_le_of_lt this hlt
    have hmod : (ratTrunc q) % (2 ^ 32 : ℤ) = ⌊q⌋ := by
      rw [ratTrunc_of_nonneg h0]
      exact Int.emod_eq_of_lt hfl0 (by omega)
    have htonat : ((⌊q⌋.toNat : ℕ) : ℚ) = (⌊q⌋ : ℚ) := by
      exact_mod_cast congrArg (fun z : ℤ => (z : ℚ)) (Int.toNat_of_nonneg hfl0)
    have hne : (⌊q⌋).toNat ≠ Timestamp_INVALID := by
      simp only [Timestamp_INVALID]
      omega
    simp only [to_raw, hq, from_raw, hmod, htonat, if_neg hne]
  refine ⟨base, ?_, ?_⟩
  · intro e q hq h0 hlt hint
    rw [base e q hq h0 hlt, hint, ← hq]
  · intro e he
    simp [to_raw, he, from_raw, Timestamp_INVALID]

/-- C6 witness: concrete evaluations of the amended round-trip theorem — an
integer time `123.0` survives exactly, the fractional time `123.75` comes
back as `123.0`, and a NaN time comes back NaN. -/
theorem c6_codec_roundtrip_witness :
    from_raw (to_raw ⟨.val 123, 5, 17⟩) = ⟨.val 123, 5, 17⟩ ∧
    from_raw (to_raw ⟨.val (123.75 : ℚ), 5, 17⟩) = ⟨.val 123, 5, 17⟩ ∧
    from_raw (to_raw ⟨.nan, 5, 17⟩) = ⟨.nan, 5, 17⟩ := by
  refine ⟨c6_codec_roundtrip.2.1 ⟨.val 123, 5, 17⟩ 123 rfl (by norm_num) (by norm_num)
      (by norm_num), ?_, c6_codec_roundtrip.2.2 ⟨.nan, 5, 17⟩ rfl⟩
  have h := c6_codec_roundtrip.1 ⟨.val (123.75 : ℚ), 5, 17⟩ (123.75 : ℚ) rfl
      (by norm_num) (by norm_num)
  rw [h]
  norm_num [Int.floor_eq_iff]

/-- C6 counterexample: the entry with the integer-valued time `4294967295.0`
(the top u32 value, which coincides with the invalid-time sentinel) does not
round-trip to itself: it decodes with a NaN time, refuting the claim as
stated over every entry. -/
theorem c6_codec_counterexample :
    from_raw (to_raw ⟨.val 4294967295, 5, 7⟩) = ⟨.nan, 5, 7⟩ ∧
    from_raw (to_raw ⟨.val 4294967295, 5, 7⟩) ≠ ⟨.val 4294967295, 5, 7⟩ ∧
    (⌊(4294967295 : ℚ)⌋ : ℚ) = 4294967295 := by
  refine ⟨?_, ?_, by norm_num⟩ <;> decide

/-- `np.argmax` over a boolean vector: the index of the first `true` element,
or `0` when no element is `true` (numpy returns the first maximal element;
with all elements `False` the maximum is `False` at index 0). -/
def np_argmax (l : List Bool) : ℕ := if l.any id then l.findIdx id else 0

/-- The in-memory state of a `FileIndex` object: its `_data` array and its
`t0` attribute (`none` models Python `None`). -/
structure FileIndex where
  entries : List Entry
  t0 : Option PyFloat
deriving DecidableEq

/-- `FileIndex.__init__(data=data, t0=t0)` for already-validated array data
(the constructor form used internally by every query operation). When `t0` is
not supplied and the data is non-empty, the code computes
`idx = np.argmax(~np.isnan(time))` and then tests `if idx >= 0` — a test
that is always true, since `np.argmax` is never negative — so `t0` is set to
`Timestamp(time[idx])` even when every time is NaN. The always-false `else`
branch (`t0 = None`) is kept here as in the source. -/
def mkFileIndex (data : List Entry) (t0 : Option PyFloat) : FileIndex :=
  match t0 with
  | some t => ⟨data, some t⟩
  | none =>
    if data.length = 0 then ⟨data, none⟩
    else
      let idx := np_argmax (data.map (fun e => !e.time.isnan))
      if (0 : ℤ) ≤ (idx : ℤ) then ⟨data, some (data.getD idx default).time⟩
      else ⟨data, none⟩

/-- C2: constructing a `FileIndex` without an explicit `t0` from a single
entry whose time is NaN (so no entry has a valid time) sets `t0` to a NaN
timestamp object, not `None`: `np.argmax` over the all-false validity mask
returns `0`, and the guard `if idx >= 0` is always true, making the
`t0 = None` branch unreachable. The claim (and the code's own dead `else`
branch) say `t0` should be `None` here. -/
theorem c2_t0_code_bug :
    (mkFileIndex [⟨.nan, 5, 10⟩] none).t0 = some PyFloat.nan ∧
    (mkFileIndex [⟨.nan, 5, 10⟩] none).t0 ≠ none ∧
    (mkFileIndex [] none).t0 = none ∧
    (mkFileIndex [⟨.nan, 5, 10⟩, ⟨.val 7, 6, 24⟩] none).t0 = some (.val 7) := by
  refine ⟨?_, ?_, ?_, ?_⟩ <;> decide

/-- Python/numpy slicing `l[a:b]` for non-negative bounds: the elements at
positions `a, ..., b-1` (clamped to the array). -/
def pySlice {α : Type} (l : List α) (a b : ℕ) : List α := (l.take b).drop a

/-- numpy boolean-mask selection `l[mask]`: the elements whose mask position
is `true`, in order. -/
def maskSelect {α : Type} : List Bool → List α → List α
  | b :: bs, x :: xs => if b then x :: maskSelect bs xs else maskSelect bs xs
  | _, _ => []

/-- The boolean array built by `idx = np.full_like(..., False); idx[a:b] =
True` over `n` elements. -/
def rangeMask (n a b : ℕ) : List Bool :=
  (List.range n).map (fun i => decide (a ≤ i) && decide (i < b))

/-- `start_idx = np.argmax(self._data['time'] >= np.floor(start)) if start is
not None else 0` from `get_time_range`. -/
def startIdx (l : List Entry) (start : Option PyFloat) : ℕ :=
  match start with
  | some st => np_argmax (l.map (fun e => pyGe e.time st.floor))
  | none => 0

/-- `end_idx = np.argmax(self._data['time'] >= stop) if stop is not None else
len(self._data)` from `get_time_range`. -/
def endIdx (l : List Entry) (stop : Option PyFloat) : ℕ :=
  match stop with
  | some sp => np_argmax (l.map (fun e => pyGe e.time sp))
  | none => l.length

/-- `FileIndex.get_time_range(start, stop, hint)`. The `time >= np.floor(start)`
and `time >= stop` comparisons are elementwise IEEE comparisons (false on NaN
entries), and `np.argmax` of each boolean vector picks the first match (or 0
when there is none). An unrecognized hint raises `ValueError`. -/
def get_time_range (s : FileIndex) (start stop : Option PyFloat)
    (hint : Option String) : Except String FileIndex :=
  let hint := hint.getD "include_nans"
  if s.entries.length = 0 then .ok (mkFileIndex s.entries s.t0)
  else
    let start_idx := startIdx s.entries start
    let end_idx := endIdx s.entries stop
    if hint = "include_nans" then
      .ok (mkFileIndex (pySlice s.entries start_idx end_idx) s.t0)
    else
      let idx := rangeMask s.entries.length start_idx end_idx
      let nan_idx := s.entries.map (fun e => e.time.isnan)
      if hint = "all_nans" then
        .ok (mkFileIndex (maskSelect (idx.zipWith (fun x y => x || y) nan_idx) s.entries) s.t0)
      else if hint = "remove_nans" then
        .ok (mkFileIndex (maskSelect (idx.zipWith (fun x y => x && !y) nan_idx) s.entries) s.t0)
      else .error "Unrecognized control hint."

/-- C8: on a non-empty index, `get_time_range` with a hint other than
`include_nans`, `all_nans` or `remove_nans` raises the invalid-argument
error; on the empty index it returns an empty `FileIndex` immediately for
every hint value, recognized or not, without raising. -/
theorem c8_hint_validation :
    (∀ (s : FileIndex) (start stop : Option PyFloat) (h : String),
      s.entries ≠ [] → h ≠ "include_nans" → h ≠ "all_nans" → h ≠ "remove_nans" →
      get_time_range s start stop (some h) = .error "Unrecognized control hint.") ∧
    (∀ (s : FileIndex) (start stop : Option PyFloat) (hint : Option String),
      s.entries = [] →
      get_time_range s start stop hint = .ok (mkFileIndex s.entries s.t0)) := by
  constructor
  · intro s start stop h hne h1 h2 h3
    have hlen : ¬ s.entries.length = 0 := by
      simpa [List.length_eq_zero] using hne
    simp only [get_time_range, Option.getD, if_neg hlen, if_neg h1, if_neg h2, if_neg h3]
  · intro s start stop hint hnil
    simp [get_time_range, hnil]

/-- C8 witness: a concrete unrecognized hint on a one-entry index raises, and
a concrete query on the empty index returns the empty index. -/
theorem c8_hint_validation_witness :
    get_time_range ⟨[⟨.val 1, 5, 0⟩], some (.val 1)⟩ none none (some "bogus") =
      .error "Unrecognized control hint." ∧
    get_time_range ⟨[], none⟩ (some (.val 2)) (some (.val 4)) (some "bogus") =
      .ok (mkFileIndex [] none) := by
  exact ⟨c8_hint_validation.1 ⟨[⟨.val 1, 5, 0⟩], some (.val 1)⟩ none none "bogus"
      (by decide) (by decide) (by decide) (by decide),
    c8_hint_validation.2 ⟨[], none⟩ (some (.val 2)) (some (.val 4)) (some "bogus") rfl⟩

theorem mkFileIndex_entries (data : List Entry) (t0 : Option PyFloat) :
    (mkFileIndex data t0).entries = data := by
  cases t0 with
  | some t => rfl
  | none =>
    simp only [mkFileIndex]
    split
    · rfl
    · split <;> rfl

theorem getD_eq_get {α : Type} (l : List α) (d : α) {i : ℕ} (hi : i < l.length) :
    l.getD i d = l.get ⟨i, hi⟩ := by
  simp [List.getD_eq_getElem?_getD, List.getElem?_eq_getElem hi]

theorem getD_eq_getElem_of_lt {α : Type} (l : List α) (d : α) {i : ℕ}
    (hi : i < l.length) : l.getD i d = l[i] := by
  simp [List.getD_eq_getElem?_getD, List.getElem?_eq_getElem hi]

theorem getD_drop {α : Type} (l : List α) (d : α) (i j : ℕ) :
    (l.drop i).getD j d = l.getD (i + j) d := by
  simp [List.getD_eq_getElem?_getD, List.getElem?_drop]

theorem getD_take {α : Type} (l : List α) (d : α) {i j : ℕ} (h : j < i) :
    (l.take i).getD j d = l.getD j d := by
  simp [List.getD_eq_getElem?_getD, List.getElem?_take_of_lt h]

theorem mem_iff_getD {α : Type} {l : List α} (d : α) {x : α} (hx : x ∈ l) :
    ∃ i, i < l.length ∧ l.getD i d = x := by
  obtain ⟨⟨i, hi⟩, h⟩ := List.mem_iff_get.mp hx
  exact ⟨i, hi, by rw [getD_eq_get l d hi, h]⟩

/-- Specification of `np.argmax` over an elementwise boolean predicate, in
the case where at least one element satisfies the predicate: the result is an
in-range index, the element there satisfies the predicate, and no earlier
element does. -/
theorem np_argmax_map_spec {α : Type} (p : α → Bool) (l : List α) (d : α)
    (h : l.any p = true) :
    np_argmax (l.map p) < l.length ∧
    p (l.getD (np_argmax (l.map p)) d) = true ∧
    (∀ i, i < np_argmax (l.map p) → p (l.getD i d) = false) := by
  have hmapany : (l.map p).any id = true := by
    simpa [List.any_map, Function.comp] using h
  have hex : ∃ x ∈ l.map p, id x = true := by
    obtain ⟨e, he, hp⟩ := List.any_eq_true.mp h
    exact ⟨p e, List.mem_map_of_mem p he, hp⟩
  have heq : np_argmax (l.map p) = (l.map p).findIdx id := by
    unfold np_argmax
    rw [if_pos hmapany]
  have hlt' : (l.map p).findIdx id < (l.map p).length :=
    List.findIdx_lt_length_of_exists hex
  have hltl : (l.map p).findIdx id < l.length := by simpa using hlt'
  refine ⟨by rw [heq]; exact hltl, ?_, ?_⟩
  · have base := @List.findIdx_getElem _ id (l.map p) hlt'
    rw [List.getElem_map] at base
    rw [heq, getD_eq_get l d hltl]
    simpa using base
  · intro i hi
    rw [heq] at hi
    have hil : i < l.length := Nat.lt_trans hi hltl
    have base := @List.not_of_lt_findIdx _ id (l.map p) i hi
    rw [List.getElem_map] at base
    rw [getD_eq_get l d hil]
    simpa using base

/-- Comparison of the valid parts of two stored times: trivially true when
either side is NaN. Used to state the ascending-times hypothesis of C1. -/
def validLeB (x y : PyFloat) : Bool :=
  match x, y with
  | .val a, .val b => decide (a ≤ b)
  | _, _ => true

/-- The valid (non-NaN) stored times of the entries appear in ascending
order. -/
def ValidAsc (l : List Entry) : Prop :=
  l.Pairwise (fun e1 e2 => validLeB e1.time e2.time = true)

/-- `floor(start) <= t`, with an omitted start bound open-ended. -/
def inStartB (start : Option ℚ) (t : ℚ) : Bool :=
  match start with
  | some st => decide ((⌊st⌋ : ℚ) ≤ t)
  | none => true

/-- `t < stop`, with an omitted stop bound open-ended. -/
def inStopB (stop : Option ℚ) (t : ℚ) : Bool :=
  match stop with
  | some sp => decide (t < sp)
  | none => true

/-- The claim's membership condition on an entry: it has a valid time `t`
with `floor(start) <= t` (when `start` is given) and `t < stop` (when `stop`
is given). -/
def inRangeB (start stop : Option ℚ) (e : Entry) : Bool :=
  match e.time with
  | .nan => false
  | .val t => inStartB start t && inStopB stop t

theorem validAsc_mono {l : List Entry} (hasc : ValidAsc l) :
    ∀ i j, i < l.length → j < l.length → i ≤ j →
      ∀ ti tj, (l.getD i default).time = .val ti →
        (l.getD j default).time = .val tj → ti ≤ tj := by
  intro i j hi hj hij ti tj hti htj
  rcases Nat.lt_or_eq_of_le hij with hlt | hth
  · have h := List.pairwise_iff_getElem.mp hasc i j hi hj hlt
    rw [← getD_eq_getElem_of_lt l default hi] at h
    rw [← getD_eq_getElem_of_lt l default hj] at h
    rw [hti, htj] at h
    simpa [validLeB] using h
  · subst hth
    rw [hti] at htj
    injection htj with h2
    exact le_of_eq h2

theorem inRangeB_eq_true_iff {start stop : Option ℚ} {e : Entry} :
    inRangeB start stop e = true ↔
      ∃ t, e.time = .val t ∧ inStartB start t = true ∧ inStopB stop t = true := by
  cases h : e.time <;> simp [inRangeB, h]

/-- Core of C1 at the list level: under ascending valid times, and when each
given bound is reached by some stored time (so that `np.argmax` finds a real
boundary), the positional slice `[start_idx:end_idx]` carries exactly the
valid-time entries inside the half-open time window. -/
theorem sliceFilterEq (l : List Entry) (start stop : Option ℚ)
    (hasc : ValidAsc l)
    (hstart : ∀ st, start = some st →
      l.any (fun e => pyGe e.time (PyFloat.floor (.val st))) = true)
    (hstop : ∀ sp, stop = some sp →
      l.any (fun e => pyGe e.time (.val sp)) = true) :
    (pySlice l (startIdx l (start.map PyFloat.val))
        (endIdx l (stop.map PyFloat.val))).filter (fun e => !e.time.isnan) =
      l.filter (inRangeB start stop) := by
  generalize hadef : startIdx l (start.map PyFloat.val) = a
  generalize hbdef : endIdx l (stop.map PyFloat.val) = b
  have hstartFacts : (∀ i, i < l.length → ∀ t, (l.getD i default).time = .val t →
        inStartB start t = true → a ≤ i) ∧
      (∀ i, i < l.length → ∀ t, (l.getD i default).time = .val t →
        a ≤ i → inStartB start t = true) := by
    cases start with
    | none =>
      exact ⟨fun i _ t _ _ => hadef ▸ Nat.zero_le i, fun i _ t _ _ => rfl⟩
    | some q =>
      have ha : np_argmax (l.map (fun e => pyGe e.time (PyFloat.floor (PyFloat.val q)))) = a :=
        hadef
      obtain ⟨haLt, haPred, haMin⟩ :=
        np_argmax_map_spec (fun e => pyGe e.time (PyFloat.floor (PyFloat.val q))) l default
          (hstart q rfl)
      rw [ha] at haLt haPred haMin
      constructor
      · intro i hi t ht hin
        by_contra hia
        push_neg at hia
        have hm : pyGe (l.getD i default).time (PyFloat.floor (PyFloat.val q)) = false :=
          haMin i hia
        rw [ht] at hm
        simp only [PyFloat.floor, pyGe, decide_eq_false_iff_not] at hm
        simp only [inStartB, decide_eq_true_eq] at hin
        exact hm hin
      · intro i hi t ht hai
        have hp : pyGe (l.getD a default).time (PyFloat.floor (PyFloat.val q)) = true :=
          haPred
        cases hta : (l.getD a default).time with
        | nan => rw [hta] at hp; simp [pyGe] at hp
        | val ta =>
          rw [hta] at hp
          simp only [PyFloat.floor, pyGe, decide_eq_true_eq] at hp
          have hmono := validAsc_mono hasc a i haLt hi hai ta t hta ht
          simp only [inStartB, decide_eq_true_eq]
          exact le_trans hp hmono
  have hstopFacts : (∀ i, i < l.length → ∀ t, (l.getD i default).time = .val t →
        inStopB stop t = true → i < b) ∧
      (∀ i, i < l.length → ∀ t, (l.getD i default).time = .val t →
        i < b → inStopB stop t = true) := by
    cases stop with
    | none =>
      exact ⟨fun i hi t _ _ => hbdef ▸ hi, fun i _ t _ _ => rfl⟩
    | some q =>
      have hb : np_argmax (l.map (fun e => pyGe e.time (PyFloat.val q))) = b := hbdef
      obtain ⟨hbLt, hbPred, hbMin⟩ :=
        np_argmax_map_spec (fun e => pyGe e.time (PyFloat.val q)) l default (hstop q rfl)
      rw [hb] at hbLt hbPred hbMin
      constructor
      · intro i hi t ht hin
        by_contra hib
        push_neg at hib
        have hp : pyGe (l.getD b default).time (PyFloat.val q) = true := hbPred
        cases htb : (l.getD b default).time with
        | nan => rw [htb] at hp; simp [pyGe] at hp
        | val tb =>
          rw [htb] at hp
          simp only [pyGe, decide_eq_true_eq] at hp
          have hmono := validAsc_mono hasc b i hbLt hi hib tb t htb ht
          simp only [inStopB, decide_eq_true_eq] at hin
          exact absurd (le_trans hp hmono) (not_le.mpr hin)
      · intro i hi t ht hib
        have hm : pyGe (l.getD i default).time (PyFloat.val q) = false := hbMin i hib
        rw [ht] at hm
        simp only [pyGe, decide_eq_false_iff_not, not_le] at hm
        simp only [inStopB, decide_eq_true_eq]
        exact hm
  have step2 : (l.drop b).filter (inRangeB start stop) = [] := by
    rw [List.filter_eq_nil_iff]
    intro e he hq
    obtain ⟨k, hk, hek⟩ := mem_iff_getD default he
    rw [getD_drop] at hek
    have hbk : b + k < l.length := by
      rw [List.length_drop] at hk
      omega
    obtain ⟨t, het, _, hinsp⟩ := inRangeB_eq_true_iff.mp hq
    have := hstopFacts.1 (b + k) hbk t (by rw [hek]; exact het) hinsp
    omega
  have step4 : ((l.take b).take a).filter (inRangeB start stop) = [] := by
    rw [List.filter_eq_nil_iff]
    intro e he hq
    obtain ⟨k, hk, hek⟩ := mem_iff_getD default he
    simp only [List.length_take] at hk
    have hka : k < a := by omega
    have hkb : k < b := by omega
    have hkl : k < l.length := by omega
    rw [getD_take _ _ hka, getD_take _ _ hkb] at hek
    obtain ⟨t, het, hins, _⟩ := inRangeB_eq_true_iff.mp hq
    have := hstartFacts.1 k hkl t (by rw [hek]; exact het) hins
    omega
  have step5 : ((l.take b).drop a).filter (fun e => !e.time.isnan) =
      ((l.take b).drop a).filter (inRangeB start stop) := by
    apply List.filter_congr
    intro e he
    obtain ⟨k, hk, hek⟩ := mem_iff_getD default he
    rw [getD_drop] at hek
    simp only [List.length_drop, List.length_take] at hk
    have hakb : a + k < b := by omega
    have hakl : a + k < l.length := by omega
    rw [getD_take _ _ hakb] at hek
    cases het : e.time with
    | nan => simp [inRangeB, het, PyFloat.isnan]
    | val t =>
      have h1 : inStartB start t = true :=
        hstartFacts.2 (a + k) hakl t (by rw [hek]; exact het) (Nat.le_add_right a k)
      have h2 : inStopB stop t = true :=
        hstopFacts.2 (a + k) hakl t (by rw [hek]; exact het) hakb
      simp [inRangeB, het, PyFloat.isnan, h1, h2]
  have hfinal : l.filter (inRangeB start stop) =
      ((l.take b).drop a).filter (inRangeB start stop) := by
    conv_lhs => rw [← List.take_append_drop b l]
    rw [List.filter_append, step2, List.append_nil]
    conv_lhs => rw [← List.take_append_drop a (l.take b)]
    rw [List.filter_append, step4, List.nil_append]
  rw [hfinal]
  exact step5

/-- C1 (amended): for a `FileIndex` whose valid (non-NaN) stored times are
ascending, `get_time_range(start, stop)` (default hint) treats `start` as
inclusive against the floored stored time and `stop` as exclusive, an omitted
bound being open-ended — provided each given bound is reached by the data:
some stored time is `>= floor(start)` and some stored time is `>= stop`.
Without that proviso the claim fails (see the counterexample): `np.argmax`
over an all-false comparison vector returns index 0, collapsing the slice. -/
theorem c1_time_range_semantics (s : FileIndex) (start stop : Option ℚ)
    (hasc : ValidAsc s.entries)
    (hstart : ∀ st, start = some st →
      s.entries.any (fun e => pyGe e.time (PyFloat.floor (.val st))) = true)
    (hstop : ∀ sp, stop = some sp →
      s.entries.any (fun e => pyGe e.time (.val sp)) = true) :
    ∃ r, get_time_range s (start.map PyFloat.val) (stop.map PyFloat.val) none = .ok r ∧
      r.entries.filter (fun e => !e.time.isnan) =
        s.entries.filter (inRangeB start stop) := by
  by_cases hnil : s.entries.length = 0
  · refine ⟨mkFileIndex s.entries s.t0, ?_, ?_⟩
    · unfold get_time_range
      rw [if_pos hnil]
    · have h0 : s.entries = [] := List.length_eq_zero.mp hnil
      rw [mkFileIndex_entries, h0]
      rfl
  · refine ⟨mkFileIndex (pySlice s.entries (startIdx s.entries (start.map PyFloat.val))
        (endIdx s.entries (stop.map PyFloat.val))) s.t0, ?_, ?_⟩
    · unfold get_time_range
      rw [if_neg hnil]
      rfl
    · rw [mkFileIndex_entries]
      exact sliceFilterEq s.entries start stop hasc hstart hstop

/-- C1 witness: the spec's own example — entries at times `[1, 2, 3, 4]`,
`get_time_range(2, 4)` keeps exactly the entries at times 2 and 3. -/
theorem c1_time_range_semantics_witness :
    ∃ r, get_time_range
        ⟨[⟨.val 1, 5, 0⟩, ⟨.val 2, 5, 20⟩, ⟨.val 3, 5, 40⟩, ⟨.val 4, 5, 60⟩], some (.val 1)⟩
        ((some (2 : ℚ)).map PyFloat.val) ((some (4 : ℚ)).map PyFloat.val) none = .ok r ∧
      r.entries.filter (fun e => !e.time.isnan) =
        ([⟨.val 1, 5, 0⟩, ⟨.val 2, 5, 20⟩, ⟨.val 3, 5, 40⟩, ⟨.val 4, 5, 60⟩] :
          List Entry).filter (inRangeB (some 2) (some 4)) := by
  apply c1_time_range_semantics
      ⟨[⟨.val 1, 5, 0⟩, ⟨.val 2, 5, 20⟩, ⟨.val 3, 5, 40⟩, ⟨.val 4, 5, 60⟩], some (.val 1)⟩
      (some 2) (some 4)
  · unfold ValidAsc
    decide
  · intro st hst
    cases hst
    decide
  · intro sp hsp
    cases hsp
    decide

/-- C1 counterexample: on the ascending one-entry index with stored time
`1.0`, `get_time_range(None, 2.0)` returns no entries, although the entry
satisfies `t < stop` (`1 < 2`) and the claim requires it to be returned:
`np.argmax(time >= 2.0)` finds no `True` and returns 0, so the slice
`[0:0]` is empty. -/
theorem c1_time_range_counterexample :
    get_time_range ⟨[⟨.val 1, 5, 0⟩], some (.val 1)⟩ none (some (.val 2)) none =
      .ok ⟨[], some (.val 1)⟩ ∧
    ValidAsc [⟨.val 1, 5, 0⟩] ∧
    inRangeB none (some 2) ⟨.val 1, 5, 0⟩ = true := by
  refine ⟨rfl, ?_, by decide⟩
  unfold ValidAsc
  decide

/-- The key shapes of `FileIndex.__getitem__` relevant to type and positional
queries. The Python method dispatches on the runtime type of `key`; the
constructors here mirror the branches of that dispatch (a single
`MessageType`, a non-empty collection of `MessageType`s, a single `int`, a
positional `slice`, and a list of individual element indices). -/
inductive Key where
  | msgType (t : ℕ)
  | typeList (ts : List ℕ)
  | pos (i : ℕ)
  | posSlice (a : Option ℕ) (b : Option ℕ)
  | posList (l : List ℕ)

/-- `FileIndex.__getitem__`. An empty index returns `FileIndex()` (freshly
constructed, `t0 = None`) for every key. A type key builds the boolean mask
`type == key` (or `np.isin(type, keys)`) and selects by mask; an `int` key
`i` returns the slice `data[i:i+1]`; a positional slice returns `data[a:b]`;
a non-empty list of indices selects those positions in order (numpy fancy
indexing, which raises on an out-of-range index); an empty list returns an
empty index with the parent's `t0`. -/
def getitem (s : FileIndex) (k : Key) : Except String FileIndex :=
  if s.entries.length = 0 then .ok (mkFileIndex [] none)
  else match k with
  | .msgType t =>
    .ok (mkFileIndex (maskSelect (s.entries.map (fun e => e.type == t)) s.entries) s.t0)
  | .typeList ts =>
    if ts.length > 0 then
      .ok (mkFileIndex (maskSelect (s.entries.map (fun e => ts.contains e.type)) s.entries) s.t0)
    else .ok (mkFileIndex [] s.t0)
  | .pos i => .ok (mkFileIndex (pySlice s.entries i (i + 1)) s.t0)
  | .posSlice a b => .ok (mkFileIndex (pySlice s.entries (a.getD 0) (b.getD s.entries.length)) s.t0)
  | .posList l =>
    if l.length > 0 then
      if l.all (fun i => i < s.entries.length) then
        .ok (mkFileIndex (l.map (fun i => s.entries.getD i default)) s.t0)
      else .error "index out of bounds"
    else .ok (mkFileIndex [] s.t0)

theorem maskSelect_map_eq_filter {α : Type} (p : α → Bool) (l : List α) :
    maskSelect (l.map p) l = l.filter p := by
  induction l with
  | nil => rfl
  | cons x xs ih =>
    simp only [List.map_cons, maskSelect, List.filter_cons]
    by_cases h : p x <;> simp [h, ih]

/-- C9: for every `FileIndex` and every single message type or non-empty
list of message types, the type query returns a new `FileIndex` whose
entries are exactly the entries of the source whose type matches, in source
order (`List.filter` of the source), while the source index itself is left
unchanged (the operation builds a fresh `FileIndex` from a mask selection;
in this pure embedding the source value is untouched by construction). -/
theorem c9_type_query (s : FileIndex) (t : ℕ) (ts : List ℕ) (hts : ts ≠ []) :
    (∃ r, getitem s (.msgType t) = .ok r ∧
      r.entries = s.entries.filter (fun e => e.type == t)) ∧
    (∃ r, getitem s (.typeList ts) = .ok r ∧
      r.entries = s.entries.filter (fun e => ts.contains e.type)) := by
  by_cases hnil : s.entries.length = 0
  · have h0 : s.entries = [] := List.length_eq_zero.mp hnil
    constructor
    · exact ⟨mkFileIndex [] none, by unfold getitem; rw [if_pos hnil],
        by rw [mkFileIndex_entries, h0]; rfl⟩
    · exact ⟨mkFileIndex [] none, by unfold getitem; rw [if_pos hnil],
        by rw [mkFileIndex_entries, h0]; rfl⟩
  · have hts' : ts.length > 0 := by
      cases ts with
      | nil => exact absurd rfl hts
      | cons a l => simp
    constructor
    · refine ⟨mkFileIndex (maskSelect (s.entries.map (fun e => e.type == t)) s.entries) s.t0,
        ?_, ?_⟩
      · unfold getitem
        rw [if_neg hnil]
      · rw [mkFileIndex_entries]
        exact maskSelect_map_eq_filter _ _
    · refine ⟨mkFileIndex (maskSelect (s.entries.map (fun e => ts.contains e.type)) s.entries)
        s.t0, ?_, ?_⟩
      · unfold getitem
        rw [if_neg hnil]
        simp [hts']
      · rw [mkFileIndex_entries]
        exact maskSelect_map_eq_filter _ _

/-- C9 witness: filtering a concrete three-entry index by type 5 and by the
type list `[5, 99]` yields exactly the matching entries in order. -/
theorem c9_type_query_witness :
    (∃ r, getitem ⟨[⟨.val 1, 5, 0⟩, ⟨.nan, 99, 20⟩, ⟨.val 2, 5, 40⟩], some (.val 1)⟩
        (.msgType 5) = .ok r ∧
      r.entries = ([⟨.val 1, 5, 0⟩, ⟨.nan, 99, 20⟩, ⟨.val 2, 5, 40⟩] :
        List Entry).filter (fun e => e.type == 5)) ∧
    (∃ r, getitem ⟨[⟨.val 1, 5, 0⟩, ⟨.nan, 99, 20⟩, ⟨.val 2, 5, 40⟩], some (.val 1)⟩
        (.typeList [5, 99]) = .ok r ∧
      r.entries = ([⟨.val 1, 5, 0⟩, ⟨.nan, 99, 20⟩, ⟨.val 2, 5, 40⟩] :
        List Entry).filter (fun e => ([5, 99] : List ℕ).contains e.type)) :=
  c9_type_query ⟨[⟨.val 1, 5, 0⟩, ⟨.nan, 99, 20⟩, ⟨.val 2, 5, 40⟩], some (.val 1)⟩ 5 [5, 99]
    (by decide)

theorem pySlice_singleton {l : List Entry} : ∀ {i : ℕ}, i < l.length →
    pySlice l i (i + 1) = [l.getD i default] := by
  induction l with
  | nil => intro i hi; simp at hi
  | cons x xs ih =>
    intro i hi
    cases i with
    | zero => rfl
    | succ j =>
      have hj : j < xs.length := by simpa using hi
      simpa [pySlice, List.take_succ_cons, List.drop_succ_cons] using ih hj

/-- C7: on a non-empty `FileIndex`, a single in-range integer position `i`
returns a length-1 `FileIndex` holding entry `i`; a positional slice `[a:b]`
returns the contiguous sub-range (its `k`-th entry is the source's `a+k`-th);
and a non-empty list of in-range positions returns the entries at those
positions in the given order. -/
theorem c7_positional_queries (s : FileIndex) (hne : s.entries ≠ []) :
    (∀ i, i < s.entries.length →
      ∃ r, getitem s (.pos i) = .ok r ∧
        r.entries = [s.entries.getD i default] ∧ r.entries.length = 1) ∧
    (∀ a b, ∃ r, getitem s (.posSlice (some a) (some b)) = .ok r ∧
      r.entries.length = min b s.entries.length - a ∧
      ∀ k, k < r.entries.length →
        r.entries.getD k default = s.entries.getD (a + k) default) ∧
    (∀ ps, ps ≠ [] → (∀ i ∈ ps, i < s.entries.length) →
      ∃ r, getitem s (.posList ps) = .ok r ∧
        r.entries = ps.map (fun i => s.entries.getD i default)) := by
  have hnil : ¬ s.entries.length = 0 := by
    simpa [List.length_eq_zero] using hne
  refine ⟨?_, ?_, ?_⟩
  · intro i hi
    refine ⟨mkFileIndex (pySlice s.entries i (i + 1)) s.t0, ?_, ?_, ?_⟩
    · unfold getitem
      rw [if_neg hnil]
    · rw [mkFileIndex_entries]
      exact pySlice_singleton hi
    · rw [mkFileIndex_entries, pySlice_singleton hi]
      rfl
  · intro a b
    refine ⟨mkFileIndex (pySlice s.entries a b) s.t0, ?_, ?_, ?_⟩
    · unfold getitem
      rw [if_neg hnil]
      rfl
    · rw [mkFileIndex_entries]
      simp [pySlice, List.length_drop, List.length_take]
    · intro k hk
      rw [mkFileIndex_entries] at hk ⊢
      have hkb : a + k < b := by
        simp only [pySlice, List.length_drop, List.length_take] at hk
        omega
      rw [pySlice, getD_drop, getD_take _ _ hkb]
  · intro ps hps hall
    have hl : ps.length > 0 := by
      cases ps with
      | nil => exact absurd rfl hps
      | cons x xs => simp
    have hall' : ps.all (fun i => i < s.entries.length) = true := by
      simpa [List.all_eq_true] using hall
    refine ⟨mkFileIndex (ps.map (fun i => s.entries.getD i default)) s.t0, ?_, ?_⟩
    · unfold getitem
      rw [if_neg hnil]
      simp only [hl, if_pos, hall']
    · rw [mkFileIndex_entries]

/-- C7 witness: concrete positional queries on a three-entry index — element
1, the slice `[1:3]`, and the position list `[2, 0]`. -/
theorem c7_positional_queries_witness :
    (∃ r, getitem ⟨[⟨.val 1, 5, 0⟩, ⟨.val 2, 6, 20⟩, ⟨.val 3, 7, 40⟩], some (.val 1)⟩
        (.pos 1) = .ok r ∧
      r.entries = [⟨.val 2, 6, 20⟩] ∧ r.entries.length = 1) ∧
    (∃ r, getitem ⟨[⟨.val 1, 5, 0⟩, ⟨.val 2, 6, 20⟩, ⟨.val 3, 7, 40⟩], some (.val 1)⟩
        (.posList [2, 0]) = .ok r ∧
      r.entries = [⟨.val 3, 7, 40⟩, ⟨.val 1, 5, 0⟩]) := by
  have h := c7_positional_queries
    ⟨[⟨.val 1, 5, 0⟩, ⟨.val 2, 6, 20⟩, ⟨.val 3, 7, 40⟩], some (.val 1)⟩ (by decide)
  constructor
  · exact h.1 1 (by decide)
  · have h2 := h.2.2 [2, 0] (by decide) (by decide)
    simpa using h2

/-- The file-system facts `FileIndex.load` consults once the index file has
been read and decoded: whether a `data_path` argument was supplied, whether
the resolved data file (the given path, or the default `<name>.p1log` when
none was given) exists, its byte size, and the payload-size field obtained by
decoding the fixed-size message header found at a given byte offset
(`MessageHeader.unpack`, modelled from the spec as an abstract successful
decode: the header type itself lives in the `messages` module, outside the
indexed source). -/
structure DataEnv where
  pathGiven : Bool
  fileExists : Bool
  size : ℕ
  payloadAt : ℕ → ℕ

/-- The failure modes of `FileIndex.load` after the index file itself has
been read. `indexOutOfRange` models the Python `IndexError` raised by
`self._data['type'][-1]` / `self.type[-1]` on an empty array. -/
inductive LoadError where
  | dataFileNotFound
  | emptyMismatch
  | sizeMismatch (size expected : ℕ)
  | outOfBounds (size offset : ℕ)
  | indexOutOfRange
deriving DecidableEq

deriving instance DecidableEq for Except

/-- The observable outcome of `FileIndex.load`: whether `os.remove` was
called on the index file, and either the final in-memory entries or the
error raised. -/
structure LoadOutcome where
  deleted : Bool
  result : Except LoadError (List Entry)
deriving DecidableEq

/-- `FileIndex.load` from the point where the raw index records have been
decoded into `entries`, translated branch for branch:
no data path given and no default data file ⇒ strip a trailing
EOF-marker-typed entry and return (`self._data['type'][-1]` raises on an
empty index); explicit data path missing ⇒ `ValueError` without cleanup;
empty/non-empty mismatch between data file and index ⇒ `ValueError` with
cleanup if `delete_on_error`; trailing EOF marker ⇒ compare its offset to
the file size (mismatch raises without cleanup); otherwise reconstruct
`expected = last_offset + header_size + payload_size` after an
out-of-bounds check, both failures with cleanup if `delete_on_error`. -/
def load (entries : List Entry) (env : DataEnv) (delete_on_error : Bool)
    (headerSize : ℕ) : LoadOutcome :=
  if ¬ env.pathGiven ∧ ¬ env.fileExists then
    match entries.getLast? with
    | none => ⟨false, .error .indexOutOfRange⟩
    | some last =>
      if last.type = MessageType_INVALID then ⟨false, .ok entries.dropLast⟩
      else ⟨false, .ok entries⟩
  else if env.pathGiven ∧ ¬ env.fileExists then ⟨false, .error .dataFileNotFound⟩
  else
    if env.size = 0 ∧ entries.length ≠ 0 then ⟨delete_on_error, .error .emptyMismatch⟩
    else if env.size ≠ 0 ∧ entries.length = 0 then ⟨delete_on_error, .error .emptyMismatch⟩
    else match entries.getLast? with
    | none => ⟨false, .error .indexOutOfRange⟩
    | some last =>
      if last.type = MessageType_INVALID then
        if env.size = last.offset then ⟨false, .ok entries.dropLast⟩
        else ⟨false, .error (.sizeMismatch env.size last.offset)⟩
      else
        if (last.offset : ℤ) > (env.size : ℤ) - (headerSize : ℤ) then
          ⟨delete_on_error, .error (.outOfBounds env.size last.offset)⟩
        else
          let expected := last.offset + headerSize + env.payloadAt last.offset
          if expected ≠ env.size then
            ⟨delete_on_error, .error (.sizeMismatch env.size expected)⟩
          else ⟨false, .ok entries⟩

/-- Exhaustive characterization of which `load` outcomes delete the index
file: exactly the empty-mismatch errors, the out-of-bounds error, and the
size-mismatch error of the *no-marker* reconstruction path delete (when
`delete_on_error` is set); every success, the missing-file and index-range
errors, and — notably — the size-mismatch error of the EOF-marker branch
never delete. -/
theorem load_deleted_spec (entries : List Entry) (env : DataEnv) (d : Bool) (hs : ℕ) :
    ((load entries env d hs).deleted = d ∧
      ((load entries env d hs).result = .error .emptyMismatch ∨
       (∃ sz off, (load entries env d hs).result = .error (.outOfBounds sz off)) ∨
       (∃ sz ex, (load entries env d hs).result = .error (.sizeMismatch sz ex) ∧
         ∃ last, entries.getLast? = some last ∧ last.type ≠ MessageType_INVALID))) ∨
    ((load entries env d hs).deleted = false ∧
      ((∃ es, (load entries env d hs).result = .ok es) ∨
       (load entries env d hs).result = .error .indexOutOfRange ∨
       (load entries env d hs).result = .error .dataFileNotFound ∨
       (∃ sz ex, (load entries env d hs).result = .error (.sizeMismatch sz ex) ∧
         ∃ last, entries.getLast? = some last ∧ last.type = MessageType_INVALID))) := by
  unfold load
  split
  · split
    · exact .inr ⟨rfl, .inr (.inl rfl)⟩
    · split
      · exact .inr ⟨rfl, .inl ⟨_, rfl⟩⟩
      · exact .inr ⟨rfl, .inl ⟨_, rfl⟩⟩
  · split
    · exact .inr ⟨rfl, .inr (.inr (.inl rfl))⟩
    · split
      · exact .inl ⟨rfl, .inl rfl⟩
      · split
        · exact .inl ⟨rfl, .inl rfl⟩
        · split
          · exact .inr ⟨rfl, .inr (.inl rfl)⟩
          · rename_i last heq
            split
            · rename_i hty
              split
              · exact .inr ⟨rfl, .inl ⟨_, rfl⟩⟩
              · exact .inr ⟨rfl, .inr (.inr (.inr ⟨_, _, rfl, last, heq, hty⟩))⟩
            · rename_i hty
              split
              · exact .inl ⟨rfl, .inr (.inl ⟨_, _, rfl⟩)⟩
              · dsimp only
                split
                · exact .inl ⟨rfl, .inr (.inr ⟨_, _, rfl, last, heq, hty⟩)⟩
                · exact .inr ⟨rfl, .inl ⟨_, rfl⟩⟩

/-- C3: when the loaded index has no trailing EOF-marker entry and a
(non-empty) data file is present, `load` reconstructs
`expected_size = last_offset + header_size + payload_size` from the single
header read at the last entry's offset; it fails with an out-of-bounds error
when `last_offset > data_file_size - header_size`, fails with a
size-mismatch error reporting both sizes when `expected_size` differs from
the data file size, and succeeds silently (no deletion, entries unchanged)
when they are equal. -/
theorem c3_no_marker_reconstruction (entries : List Entry) (env : DataEnv)
    (delete_on_error : Bool) (headerSize : ℕ) (last : Entry)
    (hex : env.fileExists = true) (hsz : env.size ≠ 0)
    (hlast : entries.getLast? = some last) (hty : last.type ≠ MessageType_INVALID) :
    ((last.offset : ℤ) > (env.size : ℤ) - (headerSize : ℤ) →
      load entries env delete_on_error headerSize =
        ⟨delete_on_error, .error (.outOfBounds env.size last.offset)⟩) ∧
    (¬ ((last.offset : ℤ) > (env.size : ℤ) - (headerSize : ℤ)) →
      last.offset + headerSize + env.payloadAt last.offset ≠ env.size →
      load entries env delete_on_error headerSize =
        ⟨delete_on_error, .error (.sizeMismatch env.size
          (last.offset + headerSize + env.payloadAt last.offset))⟩) ∧
    (¬ ((last.offset : ℤ) > (env.size : ℤ) - (headerSize : ℤ)) →
      last.offset + headerSize + env.payloadAt last.offset = env.size →
      load entries env delete_on_error headerSize = ⟨false, .ok entries⟩) := by
  have hne : entries.length ≠ 0 := by
    cases entries with
    | nil => simp at hlast
    | cons x xs => simp
  have h1 : ¬ (¬ env.pathGiven = true ∧ ¬ env.fileExists = true) := by simp [hex]
  have h2 : ¬ (env.pathGiven = true ∧ ¬ env.fileExists = true) := by simp [hex]
  have h3 : ¬ (env.size = 0 ∧ entries.length ≠ 0) := fun h => hsz h.1
  have h4 : ¬ (env.size ≠ 0 ∧ entries.length = 0) := fun h => hne h.2
  have hred : load entries env delete_on_error headerSize =
      (if (last.offset : ℤ) > (env.size : ℤ) - (headerSize : ℤ) then
        ⟨delete_on_error, .error (.outOfBounds env.size last.offset)⟩
      else if last.offset + headerSize + env.payloadAt last.offset ≠ env.size then
        ⟨delete_on_error, .error (.sizeMismatch env.size
          (last.offset + headerSize + env.payloadAt last.offset))⟩
      else ⟨false, .ok entries⟩) := by
    simp only [load, hlast, if_neg h1, if_neg h2, if_neg h3, if_neg h4, if_neg hty]
  refine ⟨?_, ?_, ?_⟩
  · intro hb
    rw [hred, if_pos hb]
  · intro hb hmm
    rw [hred, if_neg hb, if_pos hmm]
  · intro hb heqs
    rw [hred, if_neg hb, if_neg (fun hh => hh heqs)]

/-- C3 witness: a one-entry index over a 30-byte data file whose single
message is 24 header bytes plus 6 payload bytes validates silently, and the
same index over a 40-byte data file fails with a size-mismatch error
reporting 40 and 30; a 10-byte data file (no room for a header past offset
0... the offset 0 exceeds 10 - 24) fails out of bounds. -/
theorem c3_no_marker_reconstruction_witness :
    load [⟨.val 1, 5, 0⟩] ⟨true, true, 30, fun _ => 6⟩ true 24 = ⟨false, .ok [⟨.val 1, 5, 0⟩]⟩ ∧
    load [⟨.val 1, 5, 0⟩] ⟨true, true, 40, fun _ => 6⟩ true 24 =
      ⟨true, .error (.sizeMismatch 40 30)⟩ ∧
    load [⟨.val 1, 5, 0⟩] ⟨true, true, 10, fun _ => 6⟩ true 24 =
      ⟨true, .error (.outOfBounds 10 0)⟩ := by
  refine ⟨?_, ?_, ?_⟩
  · exact (c3_no_marker_reconstruction [⟨.val 1, 5, 0⟩] ⟨true, true, 30, fun _ => 6⟩ true 24
      ⟨.val 1, 5, 0⟩ rfl (by decide) rfl (by decide)).2.2 (by decide) (by decide)
  · exact (c3_no_marker_reconstruction [⟨.val 1, 5, 0⟩] ⟨true, true, 40, fun _ => 6⟩ true 24
      ⟨.val 1, 5, 0⟩ rfl (by decide) rfl (by decide)).2.1 (by decide) (by decide)
  · exact (c3_no_marker_reconstruction [⟨.val 1, 5, 0⟩] ⟨true, true, 10, fun _ => 6⟩ true 24
      ⟨.val 1, 5, 0⟩ rfl (by decide) rfl (by decide)).1 (by decide)

/-- C4 (amended): the empty-mismatch and out-of-bounds consistency errors,
and the size-mismatch error of the no-EOF-marker reconstruction path, delete
the index file exactly when `delete_on_error` is set; but the size-mismatch
error raised in the EOF-marker branch never deletes the index file, even
with `delete_on_error` true (the claim as stated covers it, and fails
there — see the counterexample). -/
theorem c4_delete_on_error (entries : List Entry) (env : DataEnv) (d : Bool) (hs : ℕ) :
    ((load entries env d hs).result = .error .emptyMismatch →
      (load entries env d hs).deleted = d) ∧
    (∀ sz off, (load entries env d hs).result = .error (.outOfBounds sz off) →
      (load entries env d hs).deleted = d) ∧
    (∀ last, entries.getLast? = some last → last.type ≠ MessageType_INVALID →
      ∀ sz ex, (load entries env d hs).result = .error (.sizeMismatch sz ex) →
      (load entries env d hs).deleted = d) ∧
    (∀ last, entries.getLast? = some last → last.type = MessageType_INVALID →
      ∀ sz ex, (load entries env d hs).result = .error (.sizeMismatch sz ex) →
      (load entries env d hs).deleted = false) := by
  refine ⟨?_, ?_, ?_, ?_⟩
  · intro hres
    rcases load_deleted_spec entries env d hs with ⟨hd, _⟩ | ⟨hd, hcase⟩
    · exact hd
    · rw [hres] at hcase
      simp at hcase
  · intro sz off hres
    rcases load_deleted_spec entries env d hs with ⟨hd, _⟩ | ⟨hd, hcase⟩
    · exact hd
    · rw [hres] at hcase
      simp at hcase
  · intro last hlast hty sz ex hres
    rcases load_deleted_spec entries env d hs with ⟨hd, _⟩ | ⟨hd, hcase⟩
    · exact hd
    · rw [hres] at hcase
      simp at hcase
      obtain ⟨last', hlast', hINV⟩ := hcase
      rw [hlast] at hlast'
      injection hlast' with hh
      rw [← hh] at hINV
      exact absurd hINV hty
  · intro last hlast hINV sz ex hres
    rcases load_deleted_spec entries env d hs with ⟨hd, hcase⟩ | ⟨hd, _⟩
    · rw [hres] at hcase
      simp at hcase
      obtain ⟨last', hlast', hty'⟩ := hcase
      rw [hlast] at hlast'
      injection hlast' with hh
      rw [← hh] at hty'
      exact absurd hINV hty'
    · exact hd

/-- C4 witness: with `delete_on_error = True`, the no-marker size-mismatch
deletes the index file, and the EOF-marker size-mismatch does not. -/
theorem c4_delete_on_error_witness :
    (load [⟨.val 1, 5, 0⟩] ⟨true, true, 40, fun _ => 6⟩ true 24).deleted = true ∧
    (load [⟨.nan, 0, 100⟩] ⟨true, true, 50, fun _ => 0⟩ true 24).deleted = false := by
  constructor
  · exact (c4_delete_on_error [⟨.val 1, 5, 0⟩] ⟨true, true, 40, fun _ => 6⟩ true 24).2.2.1
      ⟨.val 1, 5, 0⟩ rfl (by decide) 40 30 rfl
  · exact (c4_delete_on_error [⟨.nan, 0, 100⟩] ⟨true, true, 50, fun _ => 0⟩ true 24).2.2.2
      ⟨.nan, 0, 100⟩ rfl (by decide) 50 100 rfl

/-- C4 counterexample: an index whose trailing EOF-marker entry records
offset 100 over a 50-byte data file raises the size-mismatch consistency
error with `delete_on_error = True`, yet the index file is *not* deleted
(the marker branch raises without the `os.remove` call), refuting the claim
that every consistency error deletes the file when `delete_on_error` is
true. -/
theorem c4_delete_counterexample :
    load [⟨.nan, 0, 100⟩] ⟨true, true, 50, fun _ => 0⟩ true 24 =
      ⟨false, .error (.sizeMismatch 50 100)⟩ ∧
    (load [⟨.nan, 0, 100⟩] ⟨true, true, 50, fun _ => 0⟩ true 24).deleted ≠ true := by
  constructor
  · rfl
  · decide

/-- C5 (amended): when no data path is supplied and the default companion
data file does not exist, loading a *non-empty* index content succeeds
without deleting anything: a trailing EOF-marker-typed entry is stripped,
and its absence is not an error. For *empty* index content this path raises
an IndexError (`self._data['type'][-1]` on an empty array), so the claim's
"including an empty one" fails — see the counterexample. -/
theorem c5_no_data_path (entries : List Entry) (env : DataEnv) (d : Bool) (hs : ℕ)
    (hpg : env.pathGiven = false) (hex : env.fileExists = false) :
    ∀ last, entries.getLast? = some last →
      (last.type = MessageType_INVALID →
        load entries env d hs = ⟨false, .ok entries.dropLast⟩) ∧
      (last.type ≠ MessageType_INVALID →
        load entries env d hs = ⟨false, .ok entries⟩) := by
  intro last hlast
  have h1 : ¬ env.pathGiven = true ∧ ¬ env.fileExists = true := by simp [hpg, hex]
  constructor
  · intro hINV
    simp only [load, if_pos h1, hlast, if_pos hINV]
  · intro hty
    simp only [load, if_pos h1, hlast, if_neg hty]

/-- C5 witness: with no data path and no default data file, a two-entry
index ending in an EOF-marker-typed entry loads as the one real entry, and
an index with no marker loads unchanged. -/
theorem c5_no_data_path_witness :
    load [⟨.val 1, 5, 0⟩, ⟨.nan, 0, 52⟩] ⟨false, false, 0, fun _ => 0⟩ true 24 =
      ⟨false, .ok [⟨.val 1, 5, 0⟩]⟩ ∧
    load [⟨.val 1, 5, 0⟩] ⟨false, false, 0, fun _ => 0⟩ true 24 =
      ⟨false, .ok [⟨.val 1, 5, 0⟩]⟩ := by
  constructor
  · have h := (c5_no_data_path [⟨.val 1, 5, 0⟩, ⟨.nan, 0, 52⟩] ⟨false, false, 0, fun _ => 0⟩
      true 24 rfl rfl ⟨.nan, 0, 52⟩ rfl).1 (by decide)
    simpa using h
  · exact (c5_no_data_path [⟨.val 1, 5, 0⟩] ⟨false, false, 0, fun _ => 0⟩
      true 24 rfl rfl ⟨.val 1, 5, 0⟩ rfl).2 (by decide)

/-- C5 counterexample: loading an *empty* index file content with no data
path and no default data file does not return successfully — the code
indexes `self._data['type'][-1]` on an empty array and raises an
`IndexError` — refuting the claim's "including an empty one". -/
theorem c5_no_data_path_counterexample :
    load [] ⟨false, false, 0, fun _ => 0⟩ true 24 = ⟨false, .error .indexOutOfRange⟩ ∧
    ∀ es, load [] ⟨false, false, 0, fun _ => 0⟩ true 24 ≠ ⟨false, .ok es⟩ := by
  constructor
  · rfl
  · intro es h
    have h0 : load ([] : List Entry) ⟨false, false, 0, fun _ => 0⟩ true 24 =
        ⟨false, .error .indexOutOfRange⟩ := rfl
    rw [h0] at h
    simp at h

/-- `FileIndex.save(index_path, data_path)`: a no-op when the index is empty
(the body is guarded by `len(self._data) > 0`, so an existing file at
`index_path` is left untouched); otherwise the local `data` gets an
EOF-marker entry `(nan, INVALID, stat(data_path).st_size)` appended via
`np.append` (a fresh array — `self._data` is never reassigned) when the last
entry is not already a marker and a data path was given, and the raw-encoded
records replace whatever was at `index_path`. The pair returned is the
in-memory index object after the call and the content at `index_path` after
the call (`fs` being the content before). -/
def save (s : FileIndex) (dataPathGiven : Bool) (dataFileSize : ℕ)
    (fs : Option (List RawRecord)) : FileIndex × Option (List RawRecord) :=
  if s.entries.length > 0 then
    (s, some ((if (s.entries.getLastD default).type ≠ MessageType_INVALID ∧ dataPathGiven = true
      then s.entries ++ [⟨.nan, MessageType_INVALID, dataFileSize⟩]
      else s.entries).map to_raw))
  else (s, fs)

/-- C10: `save` leaves the in-memory index unchanged (entries, `t0`, hence
length) in every case, including when an EOF-marker record is appended to
the written data; and saving an empty index writes nothing — the content at
`index_path` is exactly what it was before the call. The third conjunct
pins down the written content in the marker-appending case, showing the
marker goes only to the file. -/
theorem c10_save_frame (s : FileIndex) (pg : Bool) (sz : ℕ)
    (fs : Option (List RawRecord)) :
    (save s pg sz fs).1 = s ∧
    (s.entries = [] → (save s pg sz fs).2 = fs) ∧
    (s.entries ≠ [] → (s.entries.getLastD default).type ≠ MessageType_INVALID →
      pg = true →
      (save s pg sz fs).2 =
        some ((s.entries ++ [(⟨.nan, MessageType_INVALID, sz⟩ : Entry)]).map to_raw)) := by
  refine ⟨?_, ?_, ?_⟩
  · unfold save
    split <;> rfl
  · intro h0
    unfold save
    rw [if_neg (by simp [h0])]
  · intro hne hty hpg
    have hl : s.entries.length > 0 := List.length_pos.mpr hne
    unfold save
    rw [if_pos hl, if_pos ⟨hty, hpg⟩]

/-- C10 witness: concrete saves — the in-memory one-entry index is unchanged
by a save that appends an EOF marker; saving an empty index leaves the
pre-existing file content in place; and the written records are the entry
plus the marker. -/
theorem c10_save_frame_witness :
    (save ⟨[⟨.val 1, 5, 0⟩], some (.val 1)⟩ true 52 none).1 =
      ⟨[⟨.val 1, 5, 0⟩], some (.val 1)⟩ ∧
    (save ⟨[], none⟩ true 52 (some [⟨3, 4, 5⟩])).2 = some [⟨3, 4, 5⟩] ∧
    (save ⟨[⟨.val 1, 5, 0⟩], some (.val 1)⟩ true 52 none).2 =
      some (([⟨.val 1, 5, 0⟩, ⟨.nan, MessageType_INVALID, 52⟩] : List Entry).map to_raw) := by
  refine ⟨(c10_save_frame ⟨[⟨.val 1, 5, 0⟩], some (.val 1)⟩ true 52 none).1,
    (c10_save_frame ⟨[], none⟩ true 52 (some [⟨3, 4, 5⟩])).2.1 rfl, ?_⟩
  have h := (c10_save_frame ⟨[⟨.val 1, 5, 0⟩], some (.val 1)⟩ true 52 none).2.2
    (by decide) (by decide) rfl
  simpa using h

end FusionEngine
